import Mathlib

/-!
Shallow embedding of the FD face-detection service (Go) used to check the
natural-language specification against the implementation.

Conventions of the embedding:
* Go `float32`/`float64` arithmetic is modelled over `ℚ` (exact rational
  arithmetic) except for the embedding L2-normalisation, which needs a square
  root and is modelled over `ℝ`.  None of the verified properties depends on
  rounding behaviour; where a floating-point comparison is exact (equality of
  `30.0/100.0` and the literal `0.3` in float32, for instance) this is noted
  at the point of use.
* Wall-clock times and durations (`time.Time`, `time.Duration`) are modelled
  as integers (`ℤ`, think nanoseconds).
* Byte streams (`io.Reader`) are modelled as `List ℕ` of byte values, reading
  from the head; `io.EOF` corresponds to the empty list.
* External effects (ONNX inference, MinIO, NATS, Postgres) are oracle
  parameters: the functions under test receive the outcome of each external
  call as an argument.
-/

namespace FD

/-! ## Bounding boxes and IoU (internal/vision, detect.go `iou`)

Go `[4]float32` boxes `x1,y1,x2,y2` become a structure over `ℚ`. -/

structure BBox where
  x1 : ℚ
  y1 : ℚ
  x2 : ℚ
  y2 : ℚ
deriving DecidableEq, Repr

/-- Embedding of `iou` (detect.go): intersection-over-union of two boxes,
with the `union <= 0` guard returning 0. -/
def iou (a b : BBox) : ℚ :=
  let x1 := max a.x1 b.x1
  let y1 := max a.y1 b.y1
  let x2 := min a.x2 b.x2
  let y2 := min a.y2 b.y2
  let intersection := max 0 (x2 - x1) * max 0 (y2 - y1)
  let areaA := (a.x2 - a.x1) * (a.y2 - a.y1)
  let areaB := (b.x2 - b.x1) * (b.y2 - b.y1)
  let union := areaA + areaB - intersection
  if union ≤ 0 then 0 else intersection / union

/-! ## Tracks and the tracker (internal/vision/track.go)

`Track.ID` in Go is the string `fmt.Sprintf("%s_%d", streamID, n)`; within a
single tracker the stream id is fixed, so the string is determined by (and
injective in) the counter value `n`.  We model the id by that counter.
Attribute fields (`Gender`, `GenderConf`, `FaceAge`, `AgeRange`, `PersonID`,
`MatchScore`, `Age`) are carried by no verified claim and are omitted. -/

structure Track where
  id : ℕ
  bbox : BBox
  confidence : ℚ
  hits : ℕ
  timeSinceUpdate : ℕ
  embedding : Option (List ℚ) := none
  lastRecognized : ℤ := 0
deriving DecidableEq, Repr

/-- Tracker state (`Tracker` struct): the Go `map[string]*Track` is modelled
as a list of tracks in iteration order (Go map iteration order is arbitrary;
all theorems hold for every order), plus the id counter and configuration. -/
structure Tracker where
  tracks : List Track
  nextID : ℕ
  maxAge : ℕ
  minHits : ℕ
deriving DecidableEq, Repr

/-- Embedding of `NewTracker` (track.go): empty map, zero counter. -/
def NewTracker (maxAge minHits : ℕ) : Tracker :=
  { tracks := [], nextID := 0, maxAge := maxAge, minHits := minHits }

/-- A face detection (`Detection` struct, detect.go); the five landmarks are
carried by no verified claim and are omitted. -/
structure Detection where
  bbox : BBox
  confidence : ℚ
deriving DecidableEq, Repr

/-- Inner loop of the IoU matching in `Tracker.Update` (track.go lines
71-84): scan the track list, skipping already-matched tracks, keeping the
running best IoU (initial value `0.3`, strict `>` comparison) and the
current best track (`none` plays the role of the `""` sentinel; real track
ids are never empty, and the Go code re-reads the chosen track from the map
by its id, which yields the same track). -/
def bestMatchGo (det : Detection) (matched : List ℕ) :
    List Track → ℚ → Option Track → Option Track
  | [], _, best => best
  | tr :: rest, bestIoU, best =>
    if tr.id ∈ matched then
      bestMatchGo det matched rest bestIoU best
    else if iou det.bbox tr.bbox > bestIoU then
      bestMatchGo det matched rest (iou det.bbox tr.bbox) (some tr)
    else
      bestMatchGo det matched rest bestIoU best

/-- The track chosen for `det` by the greedy matcher, starting from the
threshold `0.3` (the float32 literal `0.3` and a float32 IoU of exactly
`30/100` are the same value, so the rational model is exact here). -/
def bestMatch (det : Detection) (tracks : List Track) (matched : List ℕ) :
    Option Track :=
  bestMatchGo det matched tracks (3 / 10) none

/-- Go emits `TrackUpdate{Track: tr, IsNew: b}`; the pointer is modelled by
the track value at emission time (the track is not mutated again within the
same `Update` call once matched). -/
structure TrackUpdate where
  track : Track
  isNew : Bool
deriving DecidableEq, Repr

/-- One iteration of the detection-matching loop in `Tracker.Update` (track.go
lines 71-101).  State: current tracks, matched track ids, emitted updates,
and the detections left unmatched so far (Go records matched detection
indices in `detMatched`; collecting the unmatched detections in order is
equivalent). -/
def matchDetStep (st : List Track × List ℕ × List TrackUpdate × List Detection)
    (det : Detection) : List Track × List ℕ × List TrackUpdate × List Detection :=
  let (tracks, matched, updates, unmatched) := st
  match bestMatch det tracks matched with
  | some tr0 =>
    let tr1 : Track :=
      { tr0 with bbox := det.bbox, confidence := det.confidence,
                 hits := tr0.hits + 1, timeSinceUpdate := 0 }
    (tracks.map (fun tr => if tr.id = tr0.id then tr1 else tr),
     matched ++ [tr0.id],
     updates ++ [{ track := tr1, isNew := false }],
     unmatched)
  | none => (tracks, matched, updates, unmatched ++ [det])

/-- One iteration of the new-track creation loop in `Tracker.Update`
(track.go lines 104-124): mint `nextID+1`, hits 1, emit `(track, true)`. -/
def newTrackStep (st : List Track × ℕ × List TrackUpdate) (det : Detection) :
    List Track × ℕ × List TrackUpdate :=
  let (tracks, nid, updates) := st
  let tr : Track :=
    { id := nid + 1, bbox := det.bbox, confidence := det.confidence,
      hits := 1, timeSinceUpdate := 0 }
  (tracks ++ [tr], nid + 1, updates ++ [{ track := tr, isNew := true }])

/-- Embedding of `Tracker.Update` (track.go): age all tracks, greedily match
detections in input order, create new tracks for unmatched detections, evict
tracks with `TimeSinceUpdate > maxAge`.  Returns the new tracker state and
the emitted updates (matched first, then new, each in detection order, as in
the Go code). -/
def Update (t : Tracker) (detections : List Detection) :
    Tracker × List TrackUpdate :=
  let aged := t.tracks.map fun tr =>
    { tr with timeSinceUpdate := tr.timeSinceUpdate + 1 }
  let phase2 := detections.foldl matchDetStep (aged, [], [], [])
  let phase3 := phase2.2.2.2.foldl newTrackStep (phase2.1, t.nextID, [])
  let tracks4 := phase3.1.filter fun tr => tr.timeSinceUpdate ≤ t.maxAge
  ({ t with tracks := tracks4, nextID := phase3.2.1 },
   phase2.2.2.1 ++ phase3.2.2)

/-- State invariant of a tracker: live track ids are pairwise distinct
(they are keys of the Go map) and no live id exceeds the counter. -/
def trackerInv (t : Tracker) : Prop :=
  (t.tracks.map Track.id).Nodup ∧ ∀ tr ∈ t.tracks, tr.id ≤ t.nextID

/-- The ids minted by a batch of updates: ids of the `is-new = true`
emissions. -/
def mintedIds (ups : List TrackUpdate) : List ℕ :=
  (ups.filter fun u => u.isNew).map fun u => u.track.id

/-- A worker's life with one tracker: fold a sequence of per-frame
detection batches through `Update`, accumulating all emitted updates. -/
def runBatches (t : Tracker) (batches : List (List Detection)) :
    Tracker × List TrackUpdate :=
  batches.foldl
    (fun st dets => ((Update st.1 dets).1, st.2 ++ (Update st.1 dets).2))
    (t, [])

/-- Embedding of `Tracker.ShouldRecognize` (track.go lines 137-145);
`now` replaces the implicit wall clock in `time.Since`. -/
def ShouldRecognize (t : Tracker) (track : Track) (interval now : ℤ) : Bool :=
  if track.hits < t.minHits then false
  else
    match track.embedding with
    | none => true
    | some _ => decide (now - track.lastRecognized ≥ interval)

/-- Embedding of `CosineSimilarity` (track.go lines 160-169): length guard
returning 0, dot product, clamp into `[-1, 1]`. -/
def CosineSimilarity (a b : List ℚ) : ℚ :=
  if a.length ≠ b.length then 0
  else min 1 (max (-1) ((a.zip b).foldl (fun acc p => acc + p.1 * p.2) 0))

/-! ## Per-track processing in `ProcessFrame` (internal/vision/pipeline.go)

The loop body of steps 5-10 (lines 188-281).  External effects are oracles:
`cropOk` is whether `cropFace` returned a non-nil crop, `embedResult` the
embedder output (`none` when `Extract` errored), `matchResult` the
`SearchFaces` top match, `freshKey` the snapshot key the code formats from
stream id, track id and timestamp, `putOk` whether `PutObject` succeeded.
The gender/age stage touches only fields omitted from the `Track` model and
cannot abort processing (its failure merely logs), so it has no oracle. -/

/-- Skip condition at pipeline.go lines 191-194:
`if !needRecognition && !upd.IsNew { continue }`. -/
def skipTrack (needRecognition isNew : Bool) : Bool :=
  !needRecognition && !isNew

/-- Fields of the published `models.DetectionResult` relevant to the claims.
Other fields (stream id, timestamp, bbox, gender, age, confidence, frame
key) are copied verbatim from task and track. -/
structure EventOut where
  trackId : ℕ
  embedding : List ℚ
  matched : Option (String × ℚ)
  snapshotKey : String
deriving DecidableEq, Repr

/-- Result of processing one track update: the track after mutation, the
published event if any, and the blob key of the snapshot `PutObject` call if
one was attempted. -/
structure UpdOut where
  track : Track
  event : Option EventOut
  snapshotPut : Option String
deriving DecidableEq, Repr

/-- Embedding of the per-update body of `ProcessFrame` (pipeline.go lines
188-281): gate on `ShouldRecognize`/`IsNew`, crop, embed (an embed error
skips the track), record embedding and recognition time on the track, match,
write a snapshot only when the update is new (a failed put blanks the key),
publish the event. -/
def processUpdate (t : Tracker) (interval now : ℤ) (upd : TrackUpdate)
    (cropOk : Bool) (embedResult : Option (List ℚ))
    (matchResult : Option (String × ℚ)) (freshKey : String) (putOk : Bool) :
    UpdOut :=
  let track := upd.track
  let needRecognition := ShouldRecognize t track interval now
  if skipTrack needRecognition upd.isNew then
    { track := track, event := none, snapshotPut := none }
  else if !cropOk then
    { track := track, event := none, snapshotPut := none }
  else
    match embedResult with
    | none => { track := track, event := none, snapshotPut := none }
    | some emb =>
      let track1 := { track with embedding := some emb, lastRecognized := now }
      let snapshotKey := if upd.isNew then (if putOk then freshKey else "") else ""
      { track := track1,
        event := some { trackId := track1.id, embedding := emb,
                        matched := matchResult, snapshotKey := snapshotKey },
        snapshotPut := if upd.isNew then some freshKey else none }

/-! ## Queue consumers (queue consumer file and the two main.go handlers)

The JetStream fetch loops dispatch each message to a handler and ack or nak
on its result; the payloads and external failures are oracles (`parseErr`
is the `json.Unmarshal` outcome). -/

/-- Positive or negative acknowledgement of one message. -/
inductive AckAction where
  | ack
  | nak
deriving DecidableEq, Repr

/-- Dispatch discipline shared by `ConsumeFrames` and `ConsumeEvents`:
`if err := handler(ctx, msg); err != nil { msg.Nak() } else { msg.Ack() }`. -/
def consumeDispatch (handlerErr : Option String) : AckAction :=
  match handlerErr with
  | some _ => AckAction.nak
  | none => AckAction.ack

/-- Embedding of the worker frame handler (worker main.go): an unmarshal
error returns nil ("don't retry on unmarshal errors"), otherwise the
`ProcessFrame` error, if any, is returned. -/
def workerFrameHandler (parseErr : Option String) (processErr : Option String) :
    Option String :=
  match parseErr with
  | some _ => none
  | none => processErr

/-- Embedding of the API event handler (cmd/api/main.go lines 89-141): an
unmarshal error is returned; a `CreateEvent` failure is only logged and the
handler broadcasts and returns nil. -/
def apiEventHandler (parseErr : Option String) (dbErr : Option String) :
    Option String :=
  match parseErr with
  | some e => some e
  | none => none

/-! ## The JPEG demultiplexer (internal/ingest/ffmpeg.go)

The ffmpeg stdout stream is a byte list; `io.EOF` is the empty list.  The
100 ms sleeps of the startup-tolerance loop have no observable effect on a
byte list (re-reading yields the same EOF), so only the retry counter is
modelled.  The per-frame callback is a pure oracle `cb` returning `true`
when the Go callback returned a non-nil error; the loop records each
emitted frame together with the callback's verdict. -/

/-- Errors of the demultiplexer: `io.EOF`, the "jpeg frame too large" error,
and "no frames received from ffmpeg" (whose formatted wait time is not
modelled). -/
inductive DemuxErr where
  | eof
  | tooLarge
  | noFrames
deriving DecidableEq, Repr

/-- Frame size cap of `readUntilJPEGEnd`: 10 MiB. -/
def maxFrameBytes : ℕ := 10 * 1024 * 1024

/-- Embedding of `findJPEGStart` (ffmpeg.go lines 166-183): scan for the
`FF D8` start-of-image marker, returning the bytes after it.  A lone `FF`
followed by a byte other than `D8` consumes both bytes, exactly as the Go
loop does (it does not re-examine the second byte). -/
def findJPEGStart : List ℕ → Option (List ℕ)
  | [] => none
  | [_] => none
  | b :: b2 :: rest =>
    if b = 255 then
      (if b2 = 216 then some rest else findJPEGStart rest)
    else findJPEGStart (b2 :: rest)

/-- Embedding of `readUntilJPEGEnd` (ffmpeg.go lines 185-212): accumulate
bytes after the implicit `FF D8` header until an `FF D9` end-of-image pair,
checking the 10 MiB cap after each append (the successful return happens
before the cap check, as in the Go code). -/
def readUntilJPEGEnd (data : List ℕ) : List ℕ → Except DemuxErr (List ℕ × List ℕ)
  | [] => Except.error DemuxErr.eof
  | b :: rest =>
    if b = 255 then
      match rest with
      | [] => Except.error DemuxErr.eof
      | n :: rest2 =>
        if n = 217 then Except.ok (data ++ [b, n], rest2)
        else if (data ++ [b, n]).length > maxFrameBytes then
          Except.error DemuxErr.tooLarge
        else readUntilJPEGEnd (data ++ [b, n]) rest2
    else if (data ++ [b]).length > maxFrameBytes then
      Except.error DemuxErr.tooLarge
    else readUntilJPEGEnd (data ++ [b]) rest

/-- Support fact for the termination of `readFramesGo`: a found start marker
consumed at least two bytes. -/
theorem findJPEGStart_len : ∀ (l r : List ℕ), findJPEGStart l = some r →
    r.length + 2 ≤ l.length := by
  intro l
  induction l using findJPEGStart.induct with
  | case1 => intro r h; simp [findJPEGStart] at h
  | case2 _ => intro r h; simp [findJPEGStart] at h
  | case3 rest => intro r h; simp [findJPEGStart] at h; subst h; simp
  | case4 b2 rest hb2 ih =>
    intro r h
    simp [findJPEGStart, hb2] at h
    have := ih r h
    simp only [List.length_cons]; omega
  | case5 b b2 rest hb ih =>
    intro r h
    simp [findJPEGStart, hb] at h
    have := ih r h
    simp only [List.length_cons] at this ⊢; omega

/-- Support fact for the termination of `readFramesGo`: a complete frame
consumed at least two bytes. -/
theorem readUntilJPEGEnd_consumed : ∀ (data l f r : List ℕ),
    readUntilJPEGEnd data l = Except.ok (f, r) → r.length + 2 ≤ l.length := by
  intro data l
  induction data, l using readUntilJPEGEnd.induct with
  | case1 d => intro f r h; simp [readUntilJPEGEnd] at h
  | case2 d => intro f r h; simp [readUntilJPEGEnd] at h
  | case3 d rest2 =>
    intro f r h
    simp [readUntilJPEGEnd] at h
    obtain ⟨-, h2⟩ := h
    subst h2; simp
  | case4 d n rest2 hn hcap =>
    intro f r h
    rw [readUntilJPEGEnd.eq_def] at h
    simp [hn] at h
    rw [if_pos (by simp at hcap; omega)] at h
    simp at h
  | case5 d n rest2 hn hcap ih =>
    intro f r h
    rw [readUntilJPEGEnd.eq_def] at h
    simp [hn] at h
    rw [if_neg (by simp at hcap; omega)] at h
    have := ih f r h
    simp only [List.length_cons]; omega
  | case6 d n rest2 hn hcap =>
    intro f r h
    rw [readUntilJPEGEnd.eq_def] at h
    simp [hn] at h
    rw [if_pos (by simp at hcap; omega)] at h
    simp at h
  | case7 d n rest2 hn hcap ih =>
    intro f r h
    rw [readUntilJPEGEnd.eq_def] at h
    simp [hn] at h
    rw [if_neg (by simp at hcap; omega)] at h
    have := ih f r h
    simp only [List.length_cons]; omega

/-- Embedding of the loop of `readJPEGFrames` (ffmpeg.go lines 120-164).
State: remaining input, `framesRead`, `startupRetries`, and the frames
emitted so far (paired with the callback verdicts, which the Go code logs
and otherwise ignores).  Termination: each loop iteration either consumes
at least two input bytes or increments the bounded retry counter. -/
def readFramesGo (cb : List ℕ → Bool) (l : List ℕ) (framesRead retries : ℕ)
    (acc : List (List ℕ × Bool)) : Except DemuxErr (List (List ℕ × Bool)) :=
  match hfind : findJPEGStart l with
  | none =>
    if h : framesRead = 0 ∧ retries < 50 then
      readFramesGo cb l framesRead (retries + 1) acc
    else if framesRead > 0 then Except.ok acc
    else Except.error DemuxErr.noFrames
  | some rest =>
    match hread : readUntilJPEGEnd [255, 216] rest with
    | Except.error DemuxErr.eof =>
      if framesRead > 0 then Except.ok acc else Except.error DemuxErr.eof
    | Except.error e => Except.error e
    | Except.ok (frame, rest2) =>
      if frame.length > 0 then
        readFramesGo cb rest2 (framesRead + 1) retries (acc ++ [(frame, cb frame)])
      else
        readFramesGo cb rest2 framesRead retries acc
termination_by l.length * 51 + (50 - retries)
decreasing_by
  · omega
  · have h1 := findJPEGStart_len l rest hfind
    have h2 := readUntilJPEGEnd_consumed [255, 216] rest frame rest2 hread
    omega
  · have h1 := findJPEGStart_len l rest hfind
    have h2 := readUntilJPEGEnd_consumed [255, 216] rest frame rest2 hread
    omega

/-- Embedding of `readJPEGFrames` (ffmpeg.go): run the loop from a fresh
state. -/
def readJPEGFrames (cb : List ℕ → Bool) (l : List ℕ) :
    Except DemuxErr (List (List ℕ × Bool)) :=
  readFramesGo cb l 0 0 []

/-- A byte list is a valid JPEG for the demultiplexer when it starts with
the `FF D8` marker and `readUntilJPEGEnd` consumes exactly its body, ending
on its `FF D9` marker. -/
def validJPEG (j : List ℕ) : Prop :=
  ∃ body, j = 255 :: 216 :: body ∧
    readUntilJPEGEnd [255, 216] body = Except.ok (j, [])

/-- A truncated tail: either no further start marker appears, or a start
marker is found but the input ends before the frame's end marker. -/
def truncatedTail (t : List ℕ) : Prop :=
  findJPEGStart t = none ∨
  ∃ r, findJPEGStart t = some r ∧
    readUntilJPEGEnd [255, 216] r = Except.error DemuxErr.eof

/-! ## The per-stream extraction loop (ingest manager, `startStream`)

The retry loop launched by `startStream`.  Each attempt's interaction with
the outside world is an oracle `AttemptIn`; `isYT` is whether the stream
kind is youtube (`cmd.Type == "youtube"`), in which case every retry
re-resolves the URL and a failed re-resolve consumes the attempt without
invoking the extractor (`continue`). -/

/-- Values of `models.StreamStatus` (internal/models/stream.go). -/
inductive StreamStatus where
  | stopped
  | starting
  | running
  | error
deriving DecidableEq, Repr

/-- Oracle for one iteration of the retry loop: whether the backoff select
hit `streamCtx.Done()`, whether `ResolveYouTubeURL` succeeded, whether
`StartExtraction` returned a non-nil error, and whether `streamCtx.Err()`
was non-nil when it returned. -/
structure AttemptIn where
  sleepCancelled : Bool
  resolveOk : Bool
  extractErr : Bool
  ctxErr : Bool
deriving DecidableEq, Repr

/-- Observable outcome of the extraction loop: the final
`updateStatus(status, msg)` call, the completed backoff sleeps in seconds,
the number of `StartExtraction` invocations, and whether the deferred
`delete(m.streams, id)` ran. -/
structure LoopOut where
  status : StreamStatus
  errorMessage : String
  sleeps : List ℕ
  extractCalls : ℕ
  entryRemoved : Bool
deriving DecidableEq, Repr

/-- Embedding of the retry loop of `startStream` (manager `go func`):
`for attempt := 0; attempt <= maxRetries; attempt++` with `maxRetries = 3`,
modelled with `fuel` = remaining iterations (initially 4).  The backoff
delay is `1 << attempt` seconds; a cancelled sleep exits with status
`stopped`; a failed youtube re-resolve consumes the attempt; an extraction
returning nil error, or any return with the context cancelled, exits with
status `stopped`; exhaustion sets status `error` with the message
"stream failed after retries".  The deferred map delete runs on every
exit. -/
def startStreamGo (isYT : Bool) (ins : ℕ → AttemptIn) : ℕ → ℕ → LoopOut
  | 0, _ =>
    { status := StreamStatus.error, errorMessage := "stream failed after retries",
      sleeps := [], extractCalls := 0, entryRemoved := true }
  | fuel + 1, attempt =>
    let i := ins attempt
    if attempt = 0 then
      if !i.extractErr || i.ctxErr then
        { status := StreamStatus.stopped, errorMessage := "",
          sleeps := [], extractCalls := 1, entryRemoved := true }
      else
        let r := startStreamGo isYT ins fuel (attempt + 1)
        { r with extractCalls := r.extractCalls + 1 }
    else if i.sleepCancelled then
      { status := StreamStatus.stopped, errorMessage := "",
        sleeps := [], extractCalls := 0, entryRemoved := true }
    else if isYT && !i.resolveOk then
      let r := startStreamGo isYT ins fuel (attempt + 1)
      { r with sleeps := 2 ^ attempt :: r.sleeps }
    else if !i.extractErr || i.ctxErr then
      { status := StreamStatus.stopped, errorMessage := "",
        sleeps := [2 ^ attempt], extractCalls := 1, entryRemoved := true }
    else
      let r := startStreamGo isYT ins fuel (attempt + 1)
      { r with sleeps := 2 ^ attempt :: r.sleeps,
               extractCalls := r.extractCalls + 1 }

/-- The extraction loop as launched by `startStream`: four iterations
(`maxRetries + 1`), starting at attempt 0. -/
def startStreamLoop (isYT : Bool) (ins : ℕ → AttemptIn) : LoopOut :=
  startStreamGo isYT ins 4 0

/-! ## Embedding L2-normalisation (internal/vision/embed.go)

The ONNX session output is the oracle `raw`; `Extract` copies the 512
floats out of the output tensor and L2-normalises them in place.  Exact
real arithmetic replaces float arithmetic; `Real.sqrt` replaces
`math.Sqrt`. -/

/-- Sum of squares accumulated left to right, as the Go loop does. -/
noncomputable def sumSq (v : List ℝ) : ℝ :=
  v.foldl (fun s x => s + x * x) 0

/-- Embedding of `normalize` (embed.go lines 106-117): divide by the L2
norm, guarded by `norm > 0` (a zero vector is returned unchanged). -/
noncomputable def normalize (v : List ℝ) : List ℝ :=
  let norm := Real.sqrt (sumSq v)
  if norm > 0 then v.map (fun x => x / norm) else v

/-- The L2 norm of a vector, for stating the normalisation claim. -/
noncomputable def l2norm (v : List ℝ) : ℝ :=
  Real.sqrt (sumSq v)

/-- Embedding of the tail of `Embedder.Extract` (embed.go lines 62-81): the
session output `raw` is copied and L2-normalised. -/
noncomputable def Extract (raw : List ℝ) : List ℝ :=
  normalize raw

/-! # Theorems -/

/-! ## C10: totality and clamping of `CosineSimilarity` -/

/-- C10: CosineSimilarity is total at the public interface: vectors of
differing lengths yield 0 rather than a failure, and for equal-length
vectors the result is clamped to the interval `[-1, 1]`. -/
theorem C10_cosine_similarity_total (a b : List ℚ) :
    (a.length ≠ b.length → CosineSimilarity a b = 0) ∧
    (a.length = b.length →
      -1 ≤ CosineSimilarity a b ∧ CosineSimilarity a b ≤ 1) := by
  constructor
  · intro h
    simp [CosineSimilarity, h]
  · intro h
    unfold CosineSimilarity
    rw [if_neg (by simp [h])]
    exact ⟨le_min (by norm_num) (le_max_left _ _), min_le_left _ _⟩

/-- Witness for C10 at concrete inputs: mismatched lengths give 0; for
equal lengths the (clamped) value lies in `[-1, 1]`. -/
theorem C10_cosine_similarity_total_witness :
    CosineSimilarity [1, 2] [1] = 0 ∧
    (-1 ≤ CosineSimilarity [2] [3] ∧ CosineSimilarity [2] [3] ≤ 1) :=
  ⟨(C10_cosine_similarity_total [1, 2] [1]).1 (by decide),
   (C10_cosine_similarity_total [2] [3]).2 rfl⟩

/-! ## C5: the `ShouldRecognize` predicate and the pipeline gate -/

/-- C5: ShouldRecognize is true iff `hits ≥ min-hits` and (the embedding is
absent or `now − last-recognized ≥ interval`); for a track whose embedding
was set at `t0` it is false throughout `[t0, t0+interval)` and true at
`t0+interval`; and the pipeline's skip condition never skips a newly
created track, whatever `ShouldRecognize` says. -/
theorem C5_should_recognize_iff (t : Tracker) (track : Track)
    (interval now : ℤ) :
    (ShouldRecognize t track interval now = true ↔
      (t.minHits ≤ track.hits ∧
        (track.embedding = none ∨ interval ≤ now - track.lastRecognized))) ∧
    (∀ e t0, track.embedding = some e → track.lastRecognized = t0 →
      t.minHits ≤ track.hits →
      (t0 ≤ now → now < t0 + interval →
        ShouldRecognize t track interval now = false) ∧
      ShouldRecognize t track interval (t0 + interval) = true) ∧
    (∀ need : Bool, skipTrack need true = false) := by
  refine ⟨?_, ?_, ?_⟩
  · by_cases hh : track.hits < t.minHits
    · simp only [ShouldRecognize, if_pos hh]
      constructor
      · intro h; exact absurd h (by simp)
      · intro h; omega
    · cases he : track.embedding with
      | none => simp [ShouldRecognize, if_neg hh, he]; omega
      | some e => simp [ShouldRecognize, if_neg hh, he]; omega
  · intro e t0 he ht0 hhits
    constructor
    · intro h1 h2
      simp [ShouldRecognize, he, ht0, Nat.not_lt.mpr hhits]
      omega
    · simp [ShouldRecognize, he, ht0, Nat.not_lt.mpr hhits]
  · intro need
    simp [skipTrack]

/-- Witness for C5: a confirmed track (hits 3, min-hits 3) whose embedding
was recognised at time 10, with interval 5: recognition is suppressed at
time 12 and allowed again at time 15. -/
theorem C5_should_recognize_iff_witness :
    ShouldRecognize ⟨[], 0, 30, 3⟩
      ⟨1, ⟨0, 0, 1, 1⟩, 1, 3, 0, some [1], 10⟩ 5 12 = false ∧
    ShouldRecognize ⟨[], 0, 30, 3⟩
      ⟨1, ⟨0, 0, 1, 1⟩, 1, 3, 0, some [1], 10⟩ 5 (10 + 5) = true := by
  have h := (C5_should_recognize_iff ⟨[], 0, 30, 3⟩
    ⟨1, ⟨0, 0, 1, 1⟩, 1, 3, 0, some [1], 10⟩ 5 12).2.1 [1] 10 rfl rfl
    (by decide)
  exact ⟨h.1 (by decide) (by decide), h.2⟩

/-! ## C3: consumer ack/nak policy -/

/-- C3 counterexample: the claim says a payload that fails JSON parsing is
acknowledged and dropped "both for the worker's frame-task consumer and
for the event distributor's detection-event consumer"; but the API event
handler returns the unmarshal error, so the dispatch loop negatively
acknowledges the malformed event (it is redelivered, not dropped). -/
theorem C3_parse_policy_counterexample :
    consumeDispatch (apiEventHandler (some "invalid json payload") none) =
      AckAction.nak ∧
    AckAction.nak ≠ AckAction.ack :=
  ⟨rfl, by decide⟩

/-- C3 amended: the worker's frame-task consumer acks (drops) messages
whose payload fails to parse and naks messages whose processing fails after
a successful parse; the event distributor naks parse failures (the
unmarshal error is returned) and acks every event that parses, even when
the database insert fails (that failure is only logged). -/
theorem C3_ack_policy (pe proc db : String) :
    consumeDispatch (workerFrameHandler (some pe) (some proc)) = AckAction.ack ∧
    consumeDispatch (workerFrameHandler none (some proc)) = AckAction.nak ∧
    consumeDispatch (workerFrameHandler none none) = AckAction.ack ∧
    consumeDispatch (apiEventHandler (some pe) (some db)) = AckAction.nak ∧
    consumeDispatch (apiEventHandler none (some db)) = AckAction.ack :=
  ⟨rfl, rfl, rfl, rfl, rfl⟩

/-! ## C1: snapshot written only at first sighting; event snapshot key -/

/-- C1 counterexample: the claim says a re-recognition event's snapshot key
equals the key stored at first sighting (non-empty, reused).  In the code
the track stores no snapshot key and `snapshotKey` is the empty string for
every non-new update: the first sighting publishes the fresh key, the
re-recognition publishes the empty string, which differs from it. -/
theorem C1_snapshot_reuse_counterexample :
    (processUpdate ⟨[], 0, 30, 3⟩ 3 0
        ⟨⟨1, ⟨0, 0, 10, 10⟩, 9 / 10, 3, 0, none, 0⟩, true⟩
        true (some [1]) none "snapshots/s/1_a.jpg" true).event =
      some ⟨1, [1], none, "snapshots/s/1_a.jpg"⟩ ∧
    (processUpdate ⟨[], 0, 30, 3⟩ 3 5
        ⟨⟨1, ⟨0, 0, 10, 10⟩, 9 / 10, 3, 0, some [1], 0⟩, false⟩
        true (some [1]) none "snapshots/s/1_b.jpg" true).event =
      some ⟨1, [1], none, ""⟩ ∧
    ("" : String) ≠ "snapshots/s/1_a.jpg" := by
  refine ⟨by decide, by decide, by decide⟩

/-- C1 amended: only a first-sighting update attempts the snapshot put (and
with the freshly formatted key); the detection event of every non-new
(re-recognition) update carries the empty snapshot key, and a first-sighting
event carries the fresh key when the put succeeded. -/
theorem C1_snapshot_policy (t : Tracker) (interval now : ℤ)
    (upd : TrackUpdate) (cropOk : Bool) (embedResult : Option (List ℚ))
    (matchResult : Option (String × ℚ)) (freshKey : String) (putOk : Bool) :
    ((processUpdate t interval now upd cropOk embedResult matchResult
        freshKey putOk).snapshotPut ≠ none → upd.isNew = true) ∧
    (∀ k, (processUpdate t interval now upd cropOk embedResult matchResult
        freshKey putOk).snapshotPut = some k → k = freshKey) ∧
    (upd.isNew = false → ∀ ev,
      (processUpdate t interval now upd cropOk embedResult matchResult
        freshKey putOk).event = some ev → ev.snapshotKey = "") ∧
    (upd.isNew = true → putOk = true → ∀ ev,
      (processUpdate t interval now upd cropOk embedResult matchResult
        freshKey putOk).event = some ev → ev.snapshotKey = freshKey) := by
  unfold processUpdate
  rcases upd with ⟨tr, isNew⟩
  cases isNew <;> cases cropOk <;> rcases embedResult with _ | emb <;>
    cases putOk <;>
    simp [skipTrack] <;>
    split <;> simp_all

/-- Witness for C1: the amended theorem applied at the two concrete updates
of the counterexample scenario. -/
theorem C1_snapshot_policy_witness :
    (⟨⟨1, ⟨0, 0, 10, 10⟩, 9 / 10, 3, 0, none, 0⟩, true⟩ : TrackUpdate).isNew
      = true ∧
    ("snapshots/s/1_a.jpg" : String) = "snapshots/s/1_a.jpg" ∧
    (⟨1, [1], none, ""⟩ : EventOut).snapshotKey = "" ∧
    (⟨1, [1], none, "snapshots/s/1_a.jpg"⟩ : EventOut).snapshotKey =
      "snapshots/s/1_a.jpg" := by
  have h1 := C1_snapshot_policy ⟨[], 0, 30, 3⟩ 3 0
    ⟨⟨1, ⟨0, 0, 10, 10⟩, 9 / 10, 3, 0, none, 0⟩, true⟩
    true (some [1]) none "snapshots/s/1_a.jpg" true
  have h2 := C1_snapshot_policy ⟨[], 0, 30, 3⟩ 3 5
    ⟨⟨1, ⟨0, 0, 10, 10⟩, 9 / 10, 3, 0, some [1], 0⟩, false⟩
    true (some [1]) none "snapshots/s/1_b.jpg" true
  exact ⟨h1.1 (by decide), h1.2.1 "snapshots/s/1_a.jpg" (by decide),
         h2.2.2.1 rfl ⟨1, [1], none, ""⟩ (by decide),
         h1.2.2.2 rfl rfl ⟨1, [1], none, "snapshots/s/1_a.jpg"⟩ (by decide)⟩

/-! ## C4: the extraction retry loop -/

/-- One-level unfolding of the loop at attempt 0 when the first attempt
ends cleanly (nil extraction error, or context cancelled). -/
theorem startStreamGo_step0_clean (isYT : Bool) (ins : ℕ → AttemptIn)
    (fuel : ℕ) (h : (!(ins 0).extractErr || (ins 0).ctxErr) = true) :
    startStreamGo isYT ins (fuel + 1) 0 =
      { status := StreamStatus.stopped, errorMessage := "",
        sleeps := [], extractCalls := 1, entryRemoved := true } := by
  simp [startStreamGo, h]

/-- One-level unfolding of the loop at attempt 0 when the first attempt
fails with the context still live. -/
theorem startStreamGo_step0_fail (isYT : Bool) (ins : ℕ → AttemptIn)
    (fuel : ℕ) (he : (ins 0).extractErr = true) (hc : (ins 0).ctxErr = false) :
    startStreamGo isYT ins (fuel + 1) 0 =
      (let r := startStreamGo isYT ins fuel 1
       { r with extractCalls := r.extractCalls + 1 }) := by
  simp [startStreamGo, he, hc]

/-- The loop makes at most `fuel` extractor invocations. -/
theorem startStreamGo_extractCalls_le (isYT : Bool) (ins : ℕ → AttemptIn) :
    ∀ fuel attempt, (startStreamGo isYT ins fuel attempt).extractCalls ≤ fuel := by
  intro fuel
  induction fuel with
  | zero => intro attempt; simp [startStreamGo]
  | succ f ih =>
    intro attempt
    simp only [startStreamGo]
    split
    · split
      · simp
      · have := ih (attempt + 1); dsimp only; omega
    · split
      · simp
      · split
        · have := ih (attempt + 1); dsimp only; omega
        · split
          · simp
          · have := ih (attempt + 1); dsimp only; omega

/-- The deferred map delete runs on every exit path. -/
theorem startStreamGo_entryRemoved (isYT : Bool) (ins : ℕ → AttemptIn) :
    ∀ fuel attempt, (startStreamGo isYT ins fuel attempt).entryRemoved = true := by
  intro fuel
  induction fuel with
  | zero => intro attempt; simp [startStreamGo]
  | succ f ih =>
    intro attempt
    simp only [startStreamGo]
    split
    · split
      · simp
      · exact ih (attempt + 1)
    · split
      · simp
      · split
        · exact ih (attempt + 1)
        · split
          · simp
          · exact ih (attempt + 1)

/-- Every exit sets either `stopped` with no message or `error` with the
message "stream failed after retries". -/
theorem startStreamGo_status_shape (isYT : Bool) (ins : ℕ → AttemptIn) :
    ∀ fuel attempt,
      ((startStreamGo isYT ins fuel attempt).status = StreamStatus.stopped ∧
        (startStreamGo isYT ins fuel attempt).errorMessage = "") ∨
      ((startStreamGo isYT ins fuel attempt).status = StreamStatus.error ∧
        (startStreamGo isYT ins fuel attempt).errorMessage =
          "stream failed after retries") := by
  intro fuel
  induction fuel with
  | zero => intro attempt; simp [startStreamGo]
  | succ f ih =>
    intro attempt
    simp only [startStreamGo]
    split
    · split
      · simp
      · exact ih (attempt + 1)
    · split
      · simp
      · split
        · exact ih (attempt + 1)
        · split
          · simp
          · exact ih (attempt + 1)

/-- Sleeps of a call entered at `attempt ≥ 1` form an initial run of the
exponential backoff sequence starting at `2 ^ attempt`. -/
theorem startStreamGo_sleeps_shape (isYT : Bool) (ins : ℕ → AttemptIn) :
    ∀ fuel attempt, 1 ≤ attempt →
      ∃ n, (startStreamGo isYT ins fuel attempt).sleeps =
        ((List.range' attempt fuel).map (2 ^ ·)).take n := by
  intro fuel
  induction fuel with
  | zero => intro attempt _; exact ⟨0, by simp [startStreamGo]⟩
  | succ f ih =>
    intro attempt ha
    simp only [startStreamGo]
    rw [if_neg (by omega)]
    split
    · exact ⟨0, by simp⟩
    · split
      · obtain ⟨n, hn⟩ := ih (attempt + 1) (by omega)
        refine ⟨n + 1, ?_⟩
        simp only [List.range'_succ, List.map_cons, List.take_succ_cons]
        simp [hn]
      · split
        · exact ⟨1, by simp [List.range'_succ]⟩
        · obtain ⟨n, hn⟩ := ih (attempt + 1) (by omega)
          refine ⟨n + 1, ?_⟩
          simp only [List.range'_succ, List.map_cons, List.take_succ_cons]
          simp [hn]

/-- When every attempt in reach fails with the context live, no sleep is
cancelled and (for youtube) every re-resolve succeeds, the loop exhausts
its fuel: error status, all backoff sleeps performed, all attempts used. -/
theorem startStreamGo_exhaust (isYT : Bool) (ins : ℕ → AttemptIn) :
    ∀ fuel attempt, 1 ≤ attempt →
      (∀ a, attempt ≤ a → a < attempt + fuel →
        (ins a).sleepCancelled = false ∧
        (isYT = true → (ins a).resolveOk = true) ∧
        (ins a).extractErr = true ∧ (ins a).ctxErr = false) →
      startStreamGo isYT ins fuel attempt =
        { status := StreamStatus.error,
          errorMessage := "stream failed after retries",
          sleeps := (List.range' attempt fuel).map (2 ^ ·),
          extractCalls := fuel, entryRemoved := true } := by
  intro fuel
  induction fuel with
  | zero => intro attempt _ _; simp [startStreamGo]
  | succ f ih =>
    intro attempt ha h
    obtain ⟨hs, hr, he, hc⟩ := h attempt (le_refl _) (by omega)
    have hy : (isYT && !(ins attempt).resolveOk) = false := by
      cases hyt : isYT
      · rfl
      · simp [hr hyt]
    simp only [startStreamGo]
    rw [if_neg (by omega)]
    rw [ih (attempt + 1) (by omega) (fun a h1 h2 => h a (by omega) (by omega))]
    simp [hs, he, hc, hy, List.range'_succ]

/-- C4: the per-stream extraction loop makes at most 4 extraction attempts;
completed backoff sleeps form an initial run of 2s, 4s, 8s; a first attempt
that ends cleanly (nil error or cancelled context) exits with status
`stopped`, one attempt and no sleep; when all four attempts fail (no
cancellation, resolvable URL) the loop sets status `error` with message
"stream failed after retries" after sleeping 2s, 4s, 8s and four attempts;
every exit sets `stopped` or that error; and the stream\'s map entry is
removed on exit. -/
theorem C4_retry_loop (isYT : Bool) (ins : ℕ → AttemptIn) :
    (startStreamLoop isYT ins).extractCalls ≤ 4 ∧
    (∃ n, (startStreamLoop isYT ins).sleeps = List.take n [2, 4, 8]) ∧
    (((startStreamLoop isYT ins).status = StreamStatus.stopped ∧
        (startStreamLoop isYT ins).errorMessage = "") ∨
      ((startStreamLoop isYT ins).status = StreamStatus.error ∧
        (startStreamLoop isYT ins).errorMessage =
          "stream failed after retries")) ∧
    (((ins 0).extractErr = false ∨ (ins 0).ctxErr = true) →
      (startStreamLoop isYT ins).status = StreamStatus.stopped ∧
      (startStreamLoop isYT ins).extractCalls = 1 ∧
      (startStreamLoop isYT ins).sleeps = []) ∧
    ((∀ a, a ≤ 3 → (ins a).sleepCancelled = false ∧
        (isYT = true → (ins a).resolveOk = true) ∧
        (ins a).extractErr = true ∧ (ins a).ctxErr = false) →
      (startStreamLoop isYT ins).status = StreamStatus.error ∧
      (startStreamLoop isYT ins).errorMessage = "stream failed after retries" ∧
      (startStreamLoop isYT ins).extractCalls = 4 ∧
      (startStreamLoop isYT ins).sleeps = [2, 4, 8]) ∧
    (startStreamLoop isYT ins).entryRemoved = true := by
  refine ⟨startStreamGo_extractCalls_le isYT ins 4 0, ?_, ?_, ?_, ?_,
    startStreamGo_entryRemoved isYT ins 4 0⟩
  · unfold startStreamLoop
    by_cases hcl : (!(ins 0).extractErr || (ins 0).ctxErr) = true
    · rw [show (4 : ℕ) = 3 + 1 from rfl, startStreamGo_step0_clean isYT ins 3 hcl]
      exact ⟨0, rfl⟩
    · have he : (ins 0).extractErr = true := by
        revert hcl; cases (ins 0).extractErr <;> simp
      have hc : (ins 0).ctxErr = false := by
        revert hcl; cases (ins 0).ctxErr <;> simp
      rw [show (4 : ℕ) = 3 + 1 from rfl, startStreamGo_step0_fail isYT ins 3 he hc]
      obtain ⟨n, hn⟩ := startStreamGo_sleeps_shape isYT ins 3 1 (by omega)
      exact ⟨n, by simpa using hn⟩
  · exact startStreamGo_status_shape isYT ins 4 0
  · intro h
    have hcl : (!(ins 0).extractErr || (ins 0).ctxErr) = true := by
      rcases h with h | h <;> simp [h]
    unfold startStreamLoop
    rw [show (4 : ℕ) = 3 + 1 from rfl, startStreamGo_step0_clean isYT ins 3 hcl]
    exact ⟨rfl, rfl, rfl⟩
  · intro h
    have h0 := h 0 (by omega)
    unfold startStreamLoop
    rw [show (4 : ℕ) = 3 + 1 from rfl,
      startStreamGo_step0_fail isYT ins 3 h0.2.2.1 h0.2.2.2,
      startStreamGo_exhaust isYT ins 3 1 (by omega)
        (fun a h1 h2 => h a (by omega))]
    refine ⟨rfl, rfl, rfl, by simp [List.range'_succ]⟩
  

/-- Witness for C4: an always-failing oracle exhausts the four attempts
with backoff 2s, 4s, 8s and ends in the error status; an immediately clean
oracle stops after one attempt with no sleep. -/
theorem C4_retry_loop_witness :
    (startStreamLoop false (fun _ => ⟨false, true, true, false⟩)).status =
      StreamStatus.error ∧
    (startStreamLoop false (fun _ => ⟨false, true, true, false⟩)).errorMessage =
      "stream failed after retries" ∧
    (startStreamLoop false (fun _ => ⟨false, true, true, false⟩)).extractCalls
      = 4 ∧
    (startStreamLoop false (fun _ => ⟨false, true, true, false⟩)).sleeps =
      [2, 4, 8] ∧
    (startStreamLoop false (fun _ => ⟨false, true, false, false⟩)).status =
      StreamStatus.stopped ∧
    (startStreamLoop false (fun _ => ⟨false, true, false, false⟩)).sleeps =
      [] := by
  have h1 := (C4_retry_loop false (fun _ => ⟨false, true, true, false⟩)).2.2.2.2.1
    (fun a _ => ⟨rfl, fun _ => rfl, rfl, rfl⟩)
  have h2 := (C4_retry_loop false (fun _ => ⟨false, true, false, false⟩)).2.2.2.1
    (Or.inl rfl)
  exact ⟨h1.1, h1.2.1, h1.2.2.1, h1.2.2.2, h2.1, h2.2.2⟩

/-! ## C9: L2 normalisation of published embeddings -/

/-- Folding the square-accumulator from `s` adds `sumSq`. -/
theorem sumSq_foldl (v : List ℝ) : ∀ s : ℝ,
    v.foldl (fun a x => a + x * x) s = s + sumSq v := by
  induction v with
  | nil => intro s; simp [sumSq]
  | cons x xs ih =>
    intro s
    simp only [List.foldl_cons, sumSq]
    rw [ih, ih (0 + x * x)]
    ring

/-- Unfolding of `sumSq` on a cons cell. -/
theorem sumSq_cons (x : ℝ) (xs : List ℝ) :
    sumSq (x :: xs) = x * x + sumSq xs := by
  have h : sumSq (x :: xs) = (0 + x * x) + sumSq xs := by
    rw [← sumSq_foldl]
    rfl
  rw [h]
  ring

/-- A sum of squares is nonnegative. -/
theorem sumSq_nonneg (v : List ℝ) : 0 ≤ sumSq v := by
  induction v with
  | nil => simp [sumSq]
  | cons x xs ih =>
    rw [sumSq_cons]
    nlinarith [mul_self_nonneg x]

/-- Dividing every component by `c` divides the sum of squares by `c * c`
(also for `c = 0`, where both sides vanish). -/
theorem sumSq_map_div (v : List ℝ) (c : ℝ) :
    sumSq (v.map (fun x => x / c)) = sumSq v / (c * c) := by
  induction v with
  | nil => simp [sumSq]
  | cons x xs ih =>
    simp only [List.map_cons]
    rw [sumSq_cons, sumSq_cons, ih, div_mul_div_comm, div_add_div_same]

/-- The sum of squares of the zero vector vanishes. -/
theorem sumSq_replicate_zero : ∀ n : ℕ, sumSq (List.replicate n (0 : ℝ)) = 0 := by
  intro n
  induction n with
  | zero => simp [sumSq]
  | succ k ih => rw [List.replicate_succ, sumSq_cons, ih]; ring

/-- C9 counterexample: the claim quantifies over every raw embedder output,
but `normalize` leaves a zero-norm vector unchanged (`norm > 0` guard), so
`Extract` of the 512-dimensional zero vector has L2 norm 0, outside
`[0.999, 1.001]`. -/
theorem C9_zero_vector_counterexample :
    Extract (List.replicate 512 (0 : ℝ)) = List.replicate 512 0 ∧
    l2norm (Extract (List.replicate 512 (0 : ℝ))) = 0 ∧
    ¬((999 / 1000 : ℝ) ≤ l2norm (Extract (List.replicate 512 (0 : ℝ)))) := by
  have hz : sumSq (List.replicate 512 (0 : ℝ)) = 0 := sumSq_replicate_zero 512
  have hext : Extract (List.replicate 512 (0 : ℝ)) = List.replicate 512 0 := by
    unfold Extract normalize
    rw [hz, Real.sqrt_zero]
    simp
  refine ⟨hext, ?_, ?_⟩
  · rw [hext]
    unfold l2norm
    rw [hz, Real.sqrt_zero]
  · rw [hext]
    unfold l2norm
    rw [hz, Real.sqrt_zero]
    norm_num

/-- C9 amended: for every raw embedder output with positive squared norm
(every output the `norm > 0` guard lets through), the vector returned by
`Extract` is exactly L2-normalised: its squared norm is 1, its L2 norm is 1
and in particular lies in `[0.999, 1.001]`, and its dimension is
preserved. -/
theorem C9_embedding_normalized (v : List ℝ) (hv : 0 < sumSq v) :
    sumSq (Extract v) = 1 ∧
    l2norm (Extract v) = 1 ∧
    ((999 / 1000 : ℝ) ≤ l2norm (Extract v) ∧
      l2norm (Extract v) ≤ 1001 / 1000) ∧
    (Extract v).length = v.length := by
  have hn : Real.sqrt (sumSq v) > 0 := Real.sqrt_pos.mpr hv
  have h1 : sumSq (Extract v) = 1 := by
    unfold Extract normalize
    rw [if_pos hn, sumSq_map_div, Real.mul_self_sqrt (le_of_lt hv)]
    exact div_self (ne_of_gt hv)
  have h2 : l2norm (Extract v) = 1 := by
    unfold l2norm
    rw [h1, Real.sqrt_one]
  refine ⟨h1, h2, ⟨by rw [h2]; norm_num, by rw [h2]; norm_num⟩, ?_⟩
  unfold Extract normalize
  rw [if_pos hn]
  simp

/-- Witness for C9: the output `[3, 4]` has squared norm 25 > 0 and its
normalisation `[3/5, 4/5]` has L2 norm exactly 1. -/
theorem C9_embedding_normalized_witness :
    sumSq (Extract [3, 4]) = 1 ∧ l2norm (Extract [3, 4]) = 1 := by
  have h := C9_embedding_normalized [3, 4]
    (by norm_num [sumSq, List.foldl_cons, List.foldl_nil])
  exact ⟨h.1, h.2.1⟩

/-! ## C8 and C2: the JPEG demultiplexer -/

/-- A start marker at the head is consumed directly. -/
theorem findJPEGStart_cons2 (xs : List ℕ) :
    findJPEGStart (255 :: 216 :: xs) = some xs := rfl

/-- Localisation: a frame scan that consumes its input exactly is unchanged
by whatever follows the end marker. -/
theorem readUntilJPEGEnd_extend : ∀ (data body f : List ℕ),
    readUntilJPEGEnd data body = Except.ok (f, []) →
    ∀ t, readUntilJPEGEnd data (body ++ t) = Except.ok (f, t) := by
  intro data body
  induction data, body using readUntilJPEGEnd.induct with
  | case1 d => intro f h t; simp [readUntilJPEGEnd] at h
  | case2 d => intro f h t; simp [readUntilJPEGEnd] at h
  | case3 d rest2 =>
    intro f h t
    simp [readUntilJPEGEnd] at h
    obtain ⟨h1, h2⟩ := h
    subst h2
    simp [readUntilJPEGEnd, h1]
  | case4 d n rest2 hn hcap =>
    intro f h t
    rw [readUntilJPEGEnd.eq_def] at h
    simp [hn] at h
    rw [if_pos (by simp at hcap; omega)] at h
    simp at h
  | case5 d n rest2 hn hcap ih =>
    intro f h t
    rw [readUntilJPEGEnd.eq_def] at h
    simp [hn] at h
    rw [if_neg (by simp at hcap; omega)] at h
    rw [List.cons_append, List.cons_append, readUntilJPEGEnd.eq_def]
    simp [hn]
    rw [if_neg (by simp at hcap; omega)]
    exact ih f h t
  | case6 d n rest2 hn hcap =>
    intro f h t
    rw [readUntilJPEGEnd.eq_def] at h
    simp [hn] at h
    rw [if_pos (by simp at hcap; omega)] at h
    simp at h
  | case7 d n rest2 hn hcap ih =>
    intro f h t
    rw [readUntilJPEGEnd.eq_def] at h
    simp [hn] at h
    rw [if_neg (by simp at hcap; omega)] at h
    rw [List.cons_append, readUntilJPEGEnd.eq_def]
    simp [hn]
    rw [if_neg (by simp at hcap; omega)]
    exact ih f h t

/-- Step equation for `readFramesGo`: a complete frame advances the loop,
bumping `framesRead` and recording the frame with its callback verdict. -/
theorem readFramesGo_found (cb : List ℕ → Bool) (l rest frame rest2 : List ℕ)
    (n ret : ℕ) (acc : List (List ℕ × Bool))
    (hfind : findJPEGStart l = some rest)
    (hread : readUntilJPEGEnd [255, 216] rest = Except.ok (frame, rest2))
    (hlen : frame.length > 0) :
    readFramesGo cb l n ret acc =
      readFramesGo cb rest2 (n + 1) ret (acc ++ [(frame, cb frame)]) := by
  rw [readFramesGo]
  split
  · simp_all
  · next rest' hfind' =>
    rw [hfind'] at hfind
    injection hfind with hfind
    subst hfind
    split
    · simp_all
    · simp_all
    · next frame' rest2' hread' =>
      rw [hread'] at hread
      injection hread with hread
      injection hread with h1 h2
      subst h1
      subst h2
      rw [if_pos hlen]

/-- Step equation for `readFramesGo`: end of input after at least one frame
is a normal end of stream. -/
theorem readFramesGo_none_pos (cb : List ℕ → Bool) (l : List ℕ) (n ret : ℕ)
    (acc : List (List ℕ × Bool)) (hfind : findJPEGStart l = none)
    (hn : n > 0) :
    readFramesGo cb l n ret acc = Except.ok acc := by
  rw [readFramesGo]
  split
  · rw [dif_neg (by omega), if_pos hn]
  · simp_all

/-- Step equation for `readFramesGo`: end of input in mid-frame after at
least one complete frame is a normal end of stream. -/
theorem readFramesGo_eof_pos (cb : List ℕ → Bool) (l rest : List ℕ)
    (n ret : ℕ) (acc : List (List ℕ × Bool))
    (hfind : findJPEGStart l = some rest)
    (hread : readUntilJPEGEnd [255, 216] rest = Except.error DemuxErr.eof)
    (hn : n > 0) :
    readFramesGo cb l n ret acc = Except.ok acc := by
  rw [readFramesGo]
  split
  · simp_all
  · next rest' hfind' =>
    rw [hfind'] at hfind
    injection hfind with hfind
    subst hfind
    split
    · rw [if_pos hn]
    · simp_all
    · simp_all

/-- Step equation for `readFramesGo`: a frame-too-large error aborts the
read. -/
theorem readFramesGo_tooLarge (cb : List ℕ → Bool) (l rest : List ℕ)
    (n ret : ℕ) (acc : List (List ℕ × Bool))
    (hfind : findJPEGStart l = some rest)
    (hread : readUntilJPEGEnd [255, 216] rest =
      Except.error DemuxErr.tooLarge) :
    readFramesGo cb l n ret acc = Except.error DemuxErr.tooLarge := by
  rw [readFramesGo]
  split
  · simp_all
  · next rest' hfind' =>
    rw [hfind'] at hfind
    injection hfind with hfind
    subst hfind
    split
    · simp_all
    · next e heq =>
      rw [heq] at hread
      injection hread with hread
      subst hread
      rfl
    · simp_all

/-- Processing the concatenation of valid JPEGs followed by anything: every
JPEG is emitted in order with its callback verdict, and the loop continues
on the tail with `framesRead` advanced. -/
theorem readFramesGo_flatten (cb : List ℕ → Bool) :
    ∀ js : List (List ℕ), (∀ j ∈ js, validJPEG j) →
    ∀ (t : List ℕ) (n ret : ℕ) (acc : List (List ℕ × Bool)),
      readFramesGo cb (js.flatten ++ t) n ret acc =
        readFramesGo cb t (n + js.length) ret
          (acc ++ js.map (fun j => (j, cb j))) := by
  intro js
  induction js with
  | nil => intro _ t n ret acc; simp
  | cons j js ih =>
    intro hv t n ret acc
    obtain ⟨body, hj, hbody⟩ := hv j (List.mem_cons_self j js)
    have hloc := readUntilJPEGEnd_extend [255, 216] body j hbody
      (js.flatten ++ t)
    have hstep := readFramesGo_found cb (j ++ (js.flatten ++ t))
      (body ++ (js.flatten ++ t)) j (js.flatten ++ t) n ret acc
      (by rw [hj]; simp [findJPEGStart_cons2])
      (hloc) (by rw [hj]; simp)
    rw [List.flatten_cons, List.append_assoc, hstep,
      ih (fun x hx => hv x (List.mem_cons_of_mem j hx)) t (n + 1) ret]
    simp [Nat.add_comm, Nat.add_assoc, Nat.add_left_comm]

/-- Scanning a run of non-marker bytes either runs out of input (EOF) or
overruns the 10 MiB cap, depending on the run's length. -/
theorem readUntilJPEGEnd_nonFF : ∀ (data l : List ℕ),
    (∀ b ∈ l, b ≠ 255) → data.length ≤ maxFrameBytes →
    readUntilJPEGEnd data l =
      (if data.length + l.length ≤ maxFrameBytes then
        Except.error DemuxErr.eof
      else Except.error DemuxErr.tooLarge) := by
  intro data l
  induction data, l using readUntilJPEGEnd.induct with
  | case1 d =>
    intro _ hd
    rw [if_pos (by simpa using hd)]
    simp [readUntilJPEGEnd]
  | case2 d => intro hb _; exact absurd rfl (hb 255 (by simp))
  | case3 d rest2 => intro hb _; exact absurd rfl (hb 255 (by simp))
  | case4 d n rest2 hn hcap => intro hb _; exact absurd rfl (hb 255 (by simp))
  | case5 d n rest2 hn hcap ih =>
    intro hb _; exact absurd rfl (hb 255 (by simp))
  | case6 d n rest2 hn hcap =>
    intro hb hd
    rw [readUntilJPEGEnd.eq_def]
    simp only [List.length_append, List.length_cons, List.length_nil] at hcap
    simp [hn]
    rw [if_pos (by omega), if_neg (by omega)]
  | case7 d n rest2 hn hcap ih =>
    intro hb hd
    rw [readUntilJPEGEnd.eq_def]
    simp only [List.length_append, List.length_cons, List.length_nil] at hcap
    simp [hn]
    rw [if_neg (by omega)]
    rw [ih (fun x hx => hb x (List.mem_cons_of_mem n hx)) (by simp; omega)]
    simp only [List.length_append, List.length_cons, List.length_nil]
    rw [show d.length + 1 + rest2.length = d.length + (rest2.length + 1) by omega]

/-- C8: fed the concatenation of N ≥ 1 valid JPEGs the demultiplexer emits
exactly those N frames in order; with a truncated JPEG after them it emits
the N complete frames and treats the EOF as a normal end of stream; and a
frame whose bytes exceed the 10 MiB cap before any end marker fails the
read with the frame-too-large error. -/
theorem C8_jpeg_roundtrip :
    (∀ (js : List (List ℕ)) (cb : List ℕ → Bool), js ≠ [] →
      (∀ j ∈ js, validJPEG j) →
      readJPEGFrames cb js.flatten =
        Except.ok (js.map (fun j => (j, cb j)))) ∧
    (∀ (js : List (List ℕ)) (t : List ℕ) (cb : List ℕ → Bool), js ≠ [] →
      (∀ j ∈ js, validJPEG j) → truncatedTail t →
      readJPEGFrames cb (js.flatten ++ t) =
        Except.ok (js.map (fun j => (j, cb j)))) ∧
    (∀ (l : List ℕ) (cb : List ℕ → Bool), (∀ b ∈ l, b ≠ 255) →
      maxFrameBytes < l.length + 2 →
      readJPEGFrames cb (255 :: 216 :: l) =
        Except.error DemuxErr.tooLarge) := by
  refine ⟨?_, ?_, ?_⟩
  · intro js cb hne hv
    have h := readFramesGo_flatten cb js hv [] 0 0 []
    rw [List.append_nil] at h
    unfold readJPEGFrames
    rw [h, readFramesGo_none_pos cb [] (0 + js.length) 0 _ rfl
      (by cases js with
          | nil => exact absurd rfl hne
          | cons a b => simp)]
    simp
  · intro js t cb hne hv ht
    have h := readFramesGo_flatten cb js hv t 0 0 []
    have hpos : 0 + js.length > 0 := by
      cases js with
      | nil => exact absurd rfl hne
      | cons a b => simp
    unfold readJPEGFrames
    rcases ht with hnone | ⟨r, hfr, hre⟩
    · rw [h, readFramesGo_none_pos cb t (0 + js.length) 0 _ hnone hpos]
      simp
    · rw [h, readFramesGo_eof_pos cb t r (0 + js.length) 0 _ hfr hre hpos]
      simp
  · intro l cb hb hlen
    have hread := readUntilJPEGEnd_nonFF [255, 216] l hb
      (by norm_num [maxFrameBytes])
    rw [if_neg (by simp only [List.length_cons, List.length_nil]; omega)]
      at hread
    exact readFramesGo_tooLarge cb (255 :: 216 :: l) l 0 0 []
      (findJPEGStart_cons2 l) hread

/-- Witness for C8: one valid five-byte JPEG round-trips alone, survives a
truncated second JPEG after it, and a 10 MiB run of zeros with no end
marker fails with the frame-too-large error. -/
theorem C8_jpeg_roundtrip_witness :
    readJPEGFrames (fun _ => false) (List.flatten [[255, 216, 0, 255, 217]]) =
      Except.ok [([255, 216, 0, 255, 217], false)] ∧
    readJPEGFrames (fun _ => false)
        (List.flatten [[255, 216, 0, 255, 217]] ++ [255, 216, 9]) =
      Except.ok [([255, 216, 0, 255, 217], false)] ∧
    readJPEGFrames (fun _ => false)
        (255 :: 216 :: List.replicate maxFrameBytes 0) =
      Except.error DemuxErr.tooLarge := by
  obtain ⟨ha, hb, hc⟩ := C8_jpeg_roundtrip
  have hv : ∀ j ∈ [[255, 216, 0, 255, 217]], validJPEG j := by
    intro j hj
    simp only [List.mem_singleton] at hj
    subst hj
    exact ⟨[0, 255, 217], rfl, rfl⟩
  refine ⟨?_, ?_, ?_⟩
  · have := ha [[255, 216, 0, 255, 217]] (fun _ => false) (by simp) hv
    simpa using this
  · have := hb [[255, 216, 0, 255, 217]] [255, 216, 9] (fun _ => false)
      (by simp) hv (Or.inr ⟨[9], rfl, rfl⟩)
    simpa using this
  · exact hc (List.replicate maxFrameBytes 0) (fun _ => false)
      (fun b hbm => by rw [List.eq_of_mem_replicate hbm]; norm_num)
      (by simp)

/-- C2 counterexample: the claim says a callback failure is returned to the
extractor and stops the attempt before further frames.  Here the callback
reports an error on the first frame (verdict `true`), yet the demultiplexer
still delivers the second frame to the callback and the read completes
normally: the error was logged and dropped, not returned. -/
theorem C2_callback_failure_counterexample :
    readJPEGFrames (fun f => decide (f = [255, 216, 1, 255, 217]))
        [255, 216, 1, 255, 217, 255, 216, 2, 255, 217] =
      Except.ok [([255, 216, 1, 255, 217], true),
                 ([255, 216, 2, 255, 217], false)] := by
  have hv : ∀ j ∈ [[255, 216, 1, 255, 217], [255, 216, 2, 255, 217]],
      validJPEG j := by
    intro j hj
    simp only [List.mem_cons, List.mem_singleton, List.not_mem_nil,
      or_false] at hj
    rcases hj with h | h <;> subst h
    · exact ⟨[1, 255, 217], rfl, rfl⟩
    · exact ⟨[2, 255, 217], rfl, rfl⟩
  have h := readFramesGo_flatten (fun f => decide (f = [255, 216, 1, 255, 217]))
    [[255, 216, 1, 255, 217], [255, 216, 2, 255, 217]] hv [] 0 0 []
  rw [show List.flatten [[255, 216, 1, 255, 217], [255, 216, 2, 255, 217]]
      ++ ([] : List ℕ) = [255, 216, 1, 255, 217, 255, 216, 2, 255, 217]
    from rfl] at h
  unfold readJPEGFrames
  rw [h, readFramesGo_none_pos _ [] _ 0 _ rfl (by simp)]
  rfl

/-- C2 amended: the demultiplexer invokes the callback once per complete
frame and ignores its verdict (logging it only): whatever errors the
callback reports, every frame of the input is still processed and the
attempt ends as a normal end of stream, so no callback error ever reaches
the extractor or triggers the retry policy. -/
theorem C2_callback_error_ignored (js : List (List ℕ)) (cb : List ℕ → Bool)
    (hne : js ≠ []) (hv : ∀ j ∈ js, validJPEG j) :
    readJPEGFrames cb js.flatten =
      Except.ok (js.map (fun j => (j, cb j))) := by
  have h := readFramesGo_flatten cb js hv [] 0 0 []
  rw [List.append_nil] at h
  unfold readJPEGFrames
  rw [h, readFramesGo_none_pos cb [] (0 + js.length) 0 _ rfl
    (by cases js with
        | nil => exact absurd rfl hne
        | cons a b => simp)]
  simp

/-- Witness for C2: the amended theorem applied to two five-byte JPEGs with
a callback failing on the first: both frames are still emitted. -/
theorem C2_callback_error_ignored_witness :
    readJPEGFrames (fun f => decide (f = [255, 216, 1, 255, 217]))
        (List.flatten [[255, 216, 1, 255, 217], [255, 216, 2, 255, 217]]) =
      Except.ok [([255, 216, 1, 255, 217], true),
                 ([255, 216, 2, 255, 217], false)] := by
  have := C2_callback_error_ignored
    [[255, 216, 1, 255, 217], [255, 216, 2, 255, 217]]
    (fun f => decide (f = [255, 216, 1, 255, 217]))
    (by simp)
    (by
      intro j hj
      simp only [List.mem_cons, List.mem_singleton, List.not_mem_nil,
        or_false] at hj
      rcases hj with h | h <;> subst h
      · exact ⟨[1, 255, 217], rfl, rfl⟩
      · exact ⟨[2, 255, 217], rfl, rfl⟩)
  simpa using this

/-! ## C6: greedy IoU matching in `Tracker.Update` -/

/-- Once the running best is set it never returns to `none`. -/
theorem bestMatchGo_isSome_of_some (det : Detection) (matched : List ℕ) :
    ∀ (ts : List Track) (q0 : ℚ) (x : Track),
      ∃ y, bestMatchGo det matched ts q0 (some x) = some y := by
  intro ts
  induction ts with
  | nil => intro q0 x; exact ⟨x, rfl⟩
  | cons tr rest ih =>
    intro q0 x
    simp only [bestMatchGo]
    split
    · exact ih q0 x
    · split
      · exact ih _ tr
      · exact ih q0 x

/-- Completeness of the scan: some unmatched track beating the running
threshold guarantees a choice. -/
theorem bestMatchGo_complete (det : Detection) (matched : List ℕ) :
    ∀ (ts : List Track) (q0 : ℚ) (b0 : Option Track),
      (∃ t ∈ ts, t.id ∉ matched ∧ q0 < iou det.bbox t.bbox) →
      ∃ y, bestMatchGo det matched ts q0 b0 = some y := by
  intro ts
  induction ts with
  | nil =>
    intro q0 b0 h
    obtain ⟨t, ht, -⟩ := h
    simp at ht
  | cons tr rest ih =>
    intro q0 b0 h
    obtain ⟨t, ht, hu, hq⟩ := h
    simp only [bestMatchGo]
    by_cases hm : tr.id ∈ matched
    · rw [if_pos hm]
      apply ih
      rcases List.mem_cons.mp ht with rfl | hrest
      · exact absurd hm hu
      · exact ⟨t, hrest, hu, hq⟩
    · rw [if_neg hm]
      by_cases hgt : iou det.bbox tr.bbox > q0
      · rw [if_pos hgt]
        exact bestMatchGo_isSome_of_some det matched rest _ tr
      · rw [if_neg hgt]
        apply ih
        rcases List.mem_cons.mp ht with rfl | hrest
        · exact absurd hq hgt
        · exact ⟨t, hrest, hu, hq⟩

/-- Soundness of the scan: a chosen track is an unmatched element beating
the initial threshold, no unmatched element anywhere beats it, and every
unmatched element before it is strictly below it (first-argmax); otherwise
the initial best is returned and nothing beats the threshold. -/
theorem bestMatchGo_spec (det : Detection) (matched : List ℕ) :
    ∀ (ts : List Track) (q0 : ℚ) (b0 : Option Track) (tr : Track),
      bestMatchGo det matched ts q0 b0 = some tr →
      (b0 = some tr ∧ ∀ t ∈ ts, t.id ∉ matched → iou det.bbox t.bbox ≤ q0) ∨
      (∃ i, ∃ hlt : i < ts.length,
        ts.get ⟨i, hlt⟩ = tr ∧ tr.id ∉ matched ∧
        q0 < iou det.bbox tr.bbox ∧
        (∀ j, ∀ hj : j < ts.length, j < i →
          (ts.get ⟨j, hj⟩).id ∉ matched →
          iou det.bbox (ts.get ⟨j, hj⟩).bbox < iou det.bbox tr.bbox) ∧
        (∀ j, ∀ hj : j < ts.length, i < j →
          (ts.get ⟨j, hj⟩).id ∉ matched →
          iou det.bbox (ts.get ⟨j, hj⟩).bbox ≤ iou det.bbox tr.bbox)) := by
  intro ts
  induction ts with
  | nil =>
    intro q0 b0 tr h
    left
    exact ⟨h, by simp⟩
  | cons t0 rest ih =>
    intro q0 b0 tr h
    simp only [bestMatchGo] at h
    by_cases hm : t0.id ∈ matched
    · rw [if_pos hm] at h
      rcases ih q0 b0 tr h with ⟨hb, hall⟩ |
        ⟨i, hlt, hget, hu, hq, hbefore, hafter⟩
      · left
        refine ⟨hb, ?_⟩
        intro t ht htu
        rcases List.mem_cons.mp ht with rfl | hr
        · exact absurd hm htu
        · exact hall t hr htu
      · right
        refine ⟨i + 1, Nat.succ_lt_succ hlt, by simpa using hget, hu, hq,
          ?_, ?_⟩
        · intro j hj hji hju
          cases j with
          | zero => exact absurd hm (by simpa using hju)
          | succ j' =>
            have hj' : j' < rest.length := by simpa using hj
            have := hbefore j' hj' (by omega) (by simpa using hju)
            simpa using this
        · intro j hj hij hju
          cases j with
          | zero => omega
          | succ j' =>
            have hj' : j' < rest.length := by simpa using hj
            have := hafter j' hj' (by omega) (by simpa using hju)
            simpa using this
    · rw [if_neg hm] at h
      by_cases hgt : iou det.bbox t0.bbox > q0
      · rw [if_pos hgt] at h
        rcases ih _ _ tr h with ⟨hb, hall⟩ |
          ⟨i, hlt, hget, hu, hq, hbefore, hafter⟩
        · injection hb with hb
          subst hb
          right
          refine ⟨0, by simp, by simp, hm, hgt, ?_, ?_⟩
          · intro j hj hji hju
            omega
          · intro j hj h0j hju
            cases j with
            | zero => omega
            | succ j' =>
              have hj' : j' < rest.length := by simpa using hj
              have := hall (rest.get ⟨j', hj'⟩) (rest.get_mem j' hj')
                (by simpa using hju)
              simpa using this
        · right
          refine ⟨i + 1, Nat.succ_lt_succ hlt, by simpa using hget, hu,
            lt_trans hgt hq, ?_, ?_⟩
          · intro j hj hji hju
            cases j with
            | zero => simpa using hq
            | succ j' =>
              have hj' : j' < rest.length := by simpa using hj
              have := hbefore j' hj' (by omega) (by simpa using hju)
              simpa using this
          · intro j hj hij hju
            cases j with
            | zero => omega
            | succ j' =>
              have hj' : j' < rest.length := by simpa using hj
              have := hafter j' hj' (by omega) (by simpa using hju)
              simpa using this
      · rw [if_neg hgt] at h
        rcases ih q0 b0 tr h with ⟨hb, hall⟩ |
          ⟨i, hlt, hget, hu, hq, hbefore, hafter⟩
        · left
          refine ⟨hb, ?_⟩
          intro t ht htu
          rcases List.mem_cons.mp ht with rfl | hr
          · exact le_of_not_lt hgt
          · exact hall t hr htu
        · right
          refine ⟨i + 1, Nat.succ_lt_succ hlt, by simpa using hget, hu, hq,
            ?_, ?_⟩
          · intro j hj hji hju
            cases j with
            | zero =>
              exact lt_of_le_of_lt (le_of_not_lt hgt) hq
            | succ j' =>
              have hj' : j' < rest.length := by simpa using hj
              have := hbefore j' hj' (by omega) (by simpa using hju)
              simpa using this
          · intro j hj hij hju
            cases j with
            | zero => omega
            | succ j' =>
              have hj' : j' < rest.length := by simpa using hj
              have := hafter j' hj' (by omega) (by simpa using hju)
              simpa using this

/-- C6 counterexample: the claim requires a match at IoU = 0.3, but the
code's comparison is strict (`iouVal > bestIoU` with `bestIoU = 0.3`).  A
detection overlapping the sole live track with IoU exactly 3/10 is not
matched: `Update` emits it as a brand-new track. -/
theorem C6_iou_threshold_counterexample :
    iou ⟨0, 0, 10, 3⟩ ⟨0, 0, 10, 10⟩ = 3 / 10 ∧
    (Update ⟨[⟨1, ⟨0, 0, 10, 10⟩, 1, 5, 0, none, 0⟩], 1, 30, 3⟩
        [⟨⟨0, 0, 10, 3⟩, 1⟩]).2 =
      [{ track := ⟨2, ⟨0, 0, 10, 3⟩, 1, 1, 0, none, 0⟩, isNew := true }] := by
  have hiou : iou ⟨0, 0, 10, 3⟩ ⟨0, 0, 10, 10⟩ = 3 / 10 := by
    simp only [iou]
    norm_num [max_def, min_def]
  refine ⟨hiou, ?_⟩
  have hlt : ¬((3 : ℚ) / 10 < iou ⟨0, 0, 10, 3⟩ ⟨0, 0, 10, 10⟩) := by
    rw [hiou]
    exact lt_irrefl _
  have hbm : bestMatch ⟨⟨0, 0, 10, 3⟩, 1⟩
      [⟨1, ⟨0, 0, 10, 10⟩, 1, 5, 1, none, 0⟩] [] = none := by
    simp [bestMatch, bestMatchGo, hlt]
  simp [Update, matchDetStep, hbm, newTrackStep]

/-- C6 amended: detections are matched greedily in input order; each
detection is matched to the not-yet-matched track with the highest IoU
provided that IoU is strictly greater than 0.3 (ties broken by iteration
order: the first track attaining the maximum wins); on a match the track's
bbox and confidence are set from the detection, hits is incremented,
time-since-update is reset to 0, and `(track, is-new=false)` is emitted;
an unmatched detection leaves the match step untouched except for joining
the unmatched list. -/
theorem C6_greedy_matching :
    (∀ (det : Detection) (tracks : List Track) (matched : List ℕ)
        (tr : Track),
      bestMatch det tracks matched = some tr →
      ∃ i, ∃ hlt : i < tracks.length,
        tracks.get ⟨i, hlt⟩ = tr ∧ tr.id ∉ matched ∧
        3 / 10 < iou det.bbox tr.bbox ∧
        (∀ j, ∀ hj : j < tracks.length, j < i →
          (tracks.get ⟨j, hj⟩).id ∉ matched →
          iou det.bbox (tracks.get ⟨j, hj⟩).bbox < iou det.bbox tr.bbox) ∧
        (∀ j, ∀ hj : j < tracks.length, i < j →
          (tracks.get ⟨j, hj⟩).id ∉ matched →
          iou det.bbox (tracks.get ⟨j, hj⟩).bbox ≤ iou det.bbox tr.bbox)) ∧
    (∀ (det : Detection) (tracks : List Track) (matched : List ℕ),
      (∃ t ∈ tracks, t.id ∉ matched ∧ 3 / 10 < iou det.bbox t.bbox) →
      ∃ tr, bestMatch det tracks matched = some tr) ∧
    (∀ (tracks : List Track) (matched : List ℕ)
        (updates : List TrackUpdate) (unmatched : List Detection)
        (det : Detection) (tr0 : Track),
      bestMatch det tracks matched = some tr0 →
      matchDetStep (tracks, matched, updates, unmatched) det =
        (tracks.map (fun tr => if tr.id = tr0.id then
            { tr0 with bbox := det.bbox,
                       confidence := det.confidence,
                       hits := tr0.hits + 1,
                       timeSinceUpdate := 0 } else tr),
         matched ++ [tr0.id],
         updates ++ [{ track := { tr0 with bbox := det.bbox,
                                           confidence := det.confidence,
                                           hits := tr0.hits + 1,
                                           timeSinceUpdate := 0 },
                       isNew := false }],
         unmatched)) ∧
    (∀ (tracks : List Track) (matched : List ℕ)
        (updates : List TrackUpdate) (unmatched : List Detection)
        (det : Detection),
      bestMatch det tracks matched = none →
      matchDetStep (tracks, matched, updates, unmatched) det =
        (tracks, matched, updates, unmatched ++ [det])) := by
  refine ⟨?_, ?_, ?_, ?_⟩
  · intro det tracks matched tr h
    rcases bestMatchGo_spec det matched tracks (3 / 10) none tr h with
      ⟨hb, -⟩ | hfound
    · exact absurd hb (by simp)
    · exact hfound
  · intro det tracks matched h
    exact bestMatchGo_complete det matched tracks (3 / 10) none h
  · intro tracks matched updates unmatched det tr0 h
    simp only [matchDetStep, h]
  · intro tracks matched updates unmatched det h
    simp only [matchDetStep, h]

/-- Witness for C6: a detection covering track 2 entirely (IoU 1) while
overlapping track 1 with IoU 16/100 picks track 2; the match step rewrites
track 2 in place and emits it with `is-new = false`. -/
theorem C6_greedy_matching_witness :
    (∃ tr, bestMatch ⟨⟨0, 0, 10, 10⟩, 1⟩
      [⟨1, ⟨0, 0, 4, 4⟩, 1, 2, 0, none, 0⟩,
       ⟨2, ⟨0, 0, 10, 10⟩, 1, 2, 0, none, 0⟩] [] = some tr) ∧
    matchDetStep ([⟨2, ⟨0, 0, 10, 10⟩, 1, 2, 0, none, 0⟩], [], [], [])
        ⟨⟨0, 0, 10, 10⟩, 1⟩ =
      ([⟨2, ⟨0, 0, 10, 10⟩, 1, 3, 0, none, 0⟩], [2],
       [{ track := ⟨2, ⟨0, 0, 10, 10⟩, 1, 3, 0, none, 0⟩, isNew := false }],
       []) := by
  have hone : iou (⟨0, 0, 10, 10⟩ : BBox) ⟨0, 0, 10, 10⟩ = 1 := by
    simp only [iou]
    norm_num [max_def, min_def]
  constructor
  · exact C6_greedy_matching.2.1 ⟨⟨0, 0, 10, 10⟩, 1⟩
      [⟨1, ⟨0, 0, 4, 4⟩, 1, 2, 0, none, 0⟩,
       ⟨2, ⟨0, 0, 10, 10⟩, 1, 2, 0, none, 0⟩] []
      ⟨⟨2, ⟨0, 0, 10, 10⟩, 1, 2, 0, none, 0⟩, by simp, by simp,
        by rw [show iou (⟨⟨0, 0, 10, 10⟩, 1⟩ : Detection).bbox
            (⟨2, ⟨0, 0, 10, 10⟩, 1, 2, 0, none, 0⟩ : Track).bbox =
            iou ⟨0, 0, 10, 10⟩ ⟨0, 0, 10, 10⟩ from rfl, hone]
           norm_num⟩
  · have hbm2 : bestMatch ⟨⟨0, 0, 10, 10⟩, 1⟩
        [⟨2, ⟨0, 0, 10, 10⟩, 1, 2, 0, none, 0⟩] [] =
        some ⟨2, ⟨0, 0, 10, 10⟩, 1, 2, 0, none, 0⟩ := by
      simp [bestMatch, bestMatchGo, hone]
      norm_num
    have h := C6_greedy_matching.2.2.1
      [⟨2, ⟨0, 0, 10, 10⟩, 1, 2, 0, none, 0⟩] [] [] [] ⟨⟨0, 0, 10, 10⟩, 1⟩
      ⟨2, ⟨0, 0, 10, 10⟩, 1, 2, 0, none, 0⟩ hbm2
    exact h.trans (by simp)

/-! ## C7: tracker id and age invariants -/

/-- One matching step never changes the id sequence of the live tracks
(the matched track is replaced by a track with the same id). -/
theorem matchDetStep_ids
    (st : List Track × List ℕ × List TrackUpdate × List Detection)
    (det : Detection) :
    ((matchDetStep st det).1).map Track.id = st.1.map Track.id := by
  rcases st with ⟨tracks, matched, updates, unmatched⟩
  cases hbm : bestMatch det tracks matched with
  | none => simp [matchDetStep, hbm]
  | some tr0 =>
    simp only [matchDetStep, hbm]
    rw [List.map_map]
    apply List.map_congr_left
    intro tr _
    by_cases h : tr.id = tr0.id
    · simp [Function.comp, h]
    · simp [Function.comp, h]

/-- The whole matching phase never changes the id sequence. -/
theorem matchFold_ids : ∀ (dets : List Detection)
    (st : List Track × List ℕ × List TrackUpdate × List Detection),
    ((dets.foldl matchDetStep st).1).map Track.id = st.1.map Track.id := by
  intro dets
  induction dets with
  | nil => intro st; rfl
  | cons d ds ih =>
    intro st
    rw [List.foldl_cons, ih (matchDetStep st d), matchDetStep_ids]

/-- One matching step emits only `is-new = false` updates. -/
theorem matchDetStep_isNew
    (st : List Track × List ℕ × List TrackUpdate × List Detection)
    (det : Detection) (h : ∀ u ∈ st.2.2.1, u.isNew = false) :
    ∀ u ∈ (matchDetStep st det).2.2.1, u.isNew = false := by
  rcases st with ⟨tracks, matched, updates, unmatched⟩
  cases hbm : bestMatch det tracks matched with
  | none => simpa [matchDetStep, hbm] using h
  | some tr0 =>
    simp only [matchDetStep, hbm]
    intro u hu
    rcases List.mem_append.mp hu with hu | hu
    · exact h u hu
    · simp only [List.mem_singleton] at hu
      subst hu
      rfl

/-- The whole matching phase emits only `is-new = false` updates. -/
theorem matchFold_isNew : ∀ (dets : List Detection)
    (st : List Track × List ℕ × List TrackUpdate × List Detection),
    (∀ u ∈ st.2.2.1, u.isNew = false) →
    ∀ u ∈ (dets.foldl matchDetStep st).2.2.1, u.isNew = false := by
  intro dets
  induction dets with
  | nil => intro st h; exact h
  | cons d ds ih =>
    intro st h
    rw [List.foldl_cons]
    exact ih (matchDetStep st d) (matchDetStep_isNew st d h)

/-- Full characterisation of the new-track phase: it appends one fresh
track per unmatched detection, with consecutive ids `nid+1, nid+2, …`, and
emits them in order with `is-new = true`. -/
theorem newFold_full : ∀ (dets : List Detection) (tracks : List Track)
    (nid : ℕ) (updates : List TrackUpdate),
    dets.foldl newTrackStep (tracks, nid, updates) =
      (tracks ++ (dets.zip (List.range' (nid + 1) dets.length)).map
         (fun p => { id := p.2, bbox := p.1.bbox,
                     confidence := p.1.confidence, hits := 1,
                     timeSinceUpdate := 0 }),
       nid + dets.length,
       updates ++ (dets.zip (List.range' (nid + 1) dets.length)).map
         (fun p => { track := { id := p.2, bbox := p.1.bbox,
                                confidence := p.1.confidence, hits := 1,
                                timeSinceUpdate := 0 },
                     isNew := true })) := by
  intro dets
  induction dets with
  | nil => intro tracks nid updates; simp
  | cons d ds ih =>
    intro tracks nid updates
    rw [List.foldl_cons]
    have hstep : newTrackStep (tracks, nid, updates) d =
        (tracks ++ [{ id := nid + 1, bbox := d.bbox,
                      confidence := d.confidence, hits := 1,
                      timeSinceUpdate := 0 }], nid + 1,
         updates ++ [{ track := { id := nid + 1, bbox := d.bbox,
                                  confidence := d.confidence, hits := 1,
                                  timeSinceUpdate := 0 },
                       isNew := true }]) := rfl
    rw [hstep, ih]
    simp only [List.length_cons, List.range'_succ, List.zip_cons_cons,
      List.map_cons, List.append_assoc, List.singleton_append,
      List.cons_append, List.nil_append, Prod.mk.injEq]
    exact ⟨trivial, by omega, trivial⟩

/-- Minted ids distribute over appended update batches. -/
theorem mintedIds_append (a b : List TrackUpdate) :
    mintedIds (a ++ b) = mintedIds a ++ mintedIds b := by
  simp [mintedIds, List.filter_append]

/-- Shape of one `Update`: the counter advances by the number of unmatched
detections `k`, the live ids afterwards form a sublist of the old ids
followed by `nextID+1, …, nextID+k`, and exactly those `k` fresh ids are
minted (emitted with `is-new = true`). -/
theorem Update_ids_sublist (t : Tracker) (dets : List Detection) :
    ∃ k : ℕ,
      (Update t dets).1.nextID = t.nextID + k ∧
      List.Sublist ((Update t dets).1.tracks.map Track.id)
        (t.tracks.map Track.id ++ List.range' (t.nextID + 1) k) ∧
      mintedIds (Update t dets).2 = List.range' (t.nextID + 1) k := by
  simp only [Update]
  set aged := t.tracks.map
    (fun tr => { tr with timeSinceUpdate := tr.timeSinceUpdate + 1 })
    with haged
  set phase2 := dets.foldl matchDetStep
    (aged, ([] : List ℕ), ([] : List TrackUpdate), ([] : List Detection))
    with hph2
  have hagedids : aged.map Track.id = t.tracks.map Track.id := by
    rw [haged, List.map_map]
    rfl
  have h2ids : phase2.1.map Track.id = t.tracks.map Track.id := by
    rw [hph2, matchFold_ids]
    exact hagedids
  have h3 := newFold_full phase2.2.2.2 phase2.1 t.nextID []
  refine ⟨phase2.2.2.2.length, ?_, ?_, ?_⟩
  · rw [h3]
  · rw [h3]
    refine List.Sublist.trans
      (List.Sublist.map Track.id (List.filter_sublist _)) ?_
    rw [List.map_append, h2ids, List.map_map]
    have hsnd : ((phase2.2.2.2.zip
        (List.range' (t.nextID + 1) phase2.2.2.2.length)).map
        (Track.id ∘ fun p => ({ id := p.2, bbox := p.1.bbox,
                                confidence := p.1.confidence, hits := 1,
                                timeSinceUpdate := 0 } : Track))) =
        List.range' (t.nextID + 1) phase2.2.2.2.length := by
      have := List.map_snd_zip phase2.2.2.2
        (List.range' (t.nextID + 1) phase2.2.2.2.length)
        (by rw [List.length_range'])
      exact this
    rw [hsnd]
  · have hfalse : ∀ u ∈ phase2.2.2.1, u.isNew = false := by
      rw [hph2]
      exact matchFold_isNew dets _ (by intro u hu; simp at hu)
    rw [h3]
    simp only []
    rw [mintedIds_append]
    have h1 : mintedIds phase2.2.2.1 = [] := by
      simp only [mintedIds]
      rw [List.filter_eq_nil_iff.mpr (by intro u hu; simp [hfalse u hu])]
      rfl
    have h2 : mintedIds (([] : List TrackUpdate) ++
        ((phase2.2.2.2.zip
          (List.range' (t.nextID + 1) phase2.2.2.2.length)).map
          (fun p => ({ track := { id := p.2, bbox := p.1.bbox,
                                  confidence := p.1.confidence, hits := 1,
                                  timeSinceUpdate := 0 },
                       isNew := true } : TrackUpdate)))) =
        List.range' (t.nextID + 1) phase2.2.2.2.length := by
      rw [List.nil_append]
      simp only [mintedIds]
      rw [List.filter_eq_self.mpr ?hall]
      case hall =>
        intro u hu
        obtain ⟨p, -, rfl⟩ := List.mem_map.mp hu
        rfl
      rw [List.map_map]
      exact List.map_snd_zip _ _ (by rw [List.length_range'])
    rw [h1, h2, List.nil_append]

/-- Accumulated minted ids stay duplicate-free across a whole run, given
the accumulator's ids are bounded by the current counter. -/
theorem runBatches_minted_aux : ∀ (batches : List (List Detection))
    (t : Tracker) (pre : List TrackUpdate),
    (∀ i ∈ mintedIds pre, i ≤ t.nextID) → (mintedIds pre).Nodup →
    (mintedIds (batches.foldl
      (fun st dets => ((Update st.1 dets).1, st.2 ++ (Update st.1 dets).2))
      (t, pre)).2).Nodup := by
  intro batches
  induction batches with
  | nil => intro t pre _ hn; exact hn
  | cons b bs ih =>
    intro t pre hb hn
    rw [List.foldl_cons]
    obtain ⟨k, hk, -, hm⟩ := Update_ids_sublist t b
    apply ih
    · intro i hi
      rw [mintedIds_append, hm] at hi
      rw [hk]
      rcases List.mem_append.mp hi with hi | hi
      · have := hb i hi
        omega
      · have := List.mem_range'_1.mp hi
        omega
    · rw [mintedIds_append, hm]
      refine List.Nodup.append hn (List.nodup_range' (t.nextID + 1) k) ?_
      intro i hi hi'
      have h1 := hb i hi
      have h2 := (List.mem_range'_1.mp hi').1
      omega

/-- C7: live track ids are pairwise distinct after every `Update`; every
surviving track has `time-since-update ≤ max-age`; the id counter never
decreases; an `is-new` emission carries an id strictly above the old
counter and distinct from every pre-existing live id; and across any
sequence of updates of one tracker the minted ids are pairwise distinct
(ids are never reused for the tracker's lifetime). -/
theorem C7_tracker_id_invariants :
    (∀ maxAge minHits, trackerInv (NewTracker maxAge minHits)) ∧
    (∀ (t : Tracker) (dets : List Detection), trackerInv t →
      trackerInv (Update t dets).1) ∧
    (∀ (t : Tracker) (dets : List Detection),
      ∀ tr ∈ (Update t dets).1.tracks, tr.timeSinceUpdate ≤ t.maxAge) ∧
    (∀ (t : Tracker) (dets : List Detection),
      t.nextID ≤ (Update t dets).1.nextID) ∧
    (∀ (t : Tracker) (dets : List Detection), trackerInv t →
      ∀ u ∈ (Update t dets).2, u.isNew = true →
        t.nextID < u.track.id ∧ ∀ tr0 ∈ t.tracks, u.track.id ≠ tr0.id) ∧
    (∀ (t : Tracker) (batches : List (List Detection)),
      (mintedIds (runBatches t batches).2).Nodup) := by
  have hmemid : ∀ (t : Tracker) (i : ℕ), i ∈ t.tracks.map Track.id →
      trackerInv t → i ≤ t.nextID := by
    intro t i hi hinv
    obtain ⟨tr0, h0, rfl⟩ := List.mem_map.mp hi
    exact hinv.2 tr0 h0
  refine ⟨?_, ?_, ?_, ?_, ?_, ?_⟩
  · intro maxAge minHits
    exact ⟨by simp [NewTracker], by simp [NewTracker]⟩
  · intro t dets hinv
    obtain ⟨k, hk, hsub, -⟩ := Update_ids_sublist t dets
    have hnodup : (t.tracks.map Track.id ++
        List.range' (t.nextID + 1) k).Nodup := by
      refine List.Nodup.append hinv.1 (List.nodup_range' (t.nextID + 1) k) ?_
      intro i hi hi'
      have h1 := hmemid t i hi hinv
      have h2 := (List.mem_range'_1.mp hi').1
      omega
    refine ⟨List.Nodup.sublist hsub hnodup, ?_⟩
    intro tr htr
    have : tr.id ∈ (Update t dets).1.tracks.map Track.id :=
      List.mem_map_of_mem Track.id htr
    have hmem := hsub.subset this
    rw [hk]
    rcases List.mem_append.mp hmem with hm | hm
    · have := hmemid t tr.id hm hinv
      omega
    · have := List.mem_range'_1.mp hm
      omega
  · intro t dets tr htr
    have : tr ∈ ((Update t dets).1).tracks := htr
    simp only [Update] at this
    have := List.of_mem_filter this
    exact of_decide_eq_true this
  · intro t dets
    obtain ⟨k, hk, -, -⟩ := Update_ids_sublist t dets
    omega
  · intro t dets hinv u hu hnew
    obtain ⟨k, hk, -, hm⟩ := Update_ids_sublist t dets
    have hmem : u.track.id ∈ mintedIds (Update t dets).2 := by
      simp only [mintedIds]
      exact List.mem_map_of_mem _ (List.mem_filter.mpr ⟨hu, by rw [hnew]⟩)
    rw [hm] at hmem
    have hb := List.mem_range'_1.mp hmem
    refine ⟨by omega, ?_⟩
    intro tr0 h0 heq
    have := hinv.2 tr0 h0
    omega
  · intro t batches
    exact runBatches_minted_aux batches t []
      (by intro i hi; simp [mintedIds] at hi)
      (by simp [mintedIds])

/-- Witness for C7: a fresh tracker absorbing two separate detections as
new tracks, then evicting nothing: the invariant is checked concretely and
one new emission's freshness bound is instantiated. -/
theorem C7_tracker_id_invariants_witness :
    trackerInv (NewTracker 30 3) ∧
    trackerInv (Update (NewTracker 30 3)
      [⟨⟨0, 0, 2, 2⟩, 1⟩, ⟨⟨5, 5, 7, 7⟩, 1⟩]).1 ∧
    (∀ u ∈ (Update (NewTracker 30 3)
        [⟨⟨0, 0, 2, 2⟩, 1⟩, ⟨⟨5, 5, 7, 7⟩, 1⟩]).2, u.isNew = true →
      0 < u.track.id) ∧
    (mintedIds (runBatches (NewTracker 30 3)
      [[⟨⟨0, 0, 2, 2⟩, 1⟩], [⟨⟨0, 0, 2, 2⟩, 1⟩]]).2).Nodup := by
  refine ⟨C7_tracker_id_invariants.1 30 3, ?_, ?_, ?_⟩
  · exact C7_tracker_id_invariants.2.1 (NewTracker 30 3)
      [⟨⟨0, 0, 2, 2⟩, 1⟩, ⟨⟨5, 5, 7, 7⟩, 1⟩]
      (C7_tracker_id_invariants.1 30 3)
  · intro u hu hnew
    have := (C7_tracker_id_invariants.2.2.2.2.1 (NewTracker 30 3)
      [⟨⟨0, 0, 2, 2⟩, 1⟩, ⟨⟨5, 5, 7, 7⟩, 1⟩]
      (C7_tracker_id_invariants.1 30 3) u hu hnew).1
    simpa [NewTracker] using this
  · exact C7_tracker_id_invariants.2.2.2.2.2 (NewTracker 30 3)
      [[⟨⟨0, 0, 2, 2⟩, 1⟩], [⟨⟨0, 0, 2, 2⟩, 1⟩]]

end FD

